import Mathlib

/-!
Verification development for a deferred (first-use-compiled) regular
expression wrapper.  The wrapper (`DeferredRegex`) holds a pattern string
and compiles it through an external pattern engine the first time any
matching operation is invoked; serialization operations read and write the
pattern string without ever triggering compilation.  Compilation failure is
a `MustCompile` panic in the original program and is modelled as `none`
throughout.
-/

set_option maxRecDepth 4000

/-- An external pattern engine: a regular-expression library offering
compilation of a pattern string (`none` models a compilation failure, which
`MustCompile` turns into a panic) and, on the compiled object, the matching,
searching, replacing, splitting and introspection operations that the
wrapper forwards to. -/
structure Engine where
  Compiled : Type
  compile : String → Option Compiled
  matchString : Compiled → String → Bool
  findString : Compiled → String → String
  findStringIndex : Compiled → String → Option (Nat × Nat)
  findStringSubmatch : Compiled → String → Option (List String)
  findAllString : Compiled → String → Int → Option (List String)
  replaceAllString : Compiled → String → String → String
  replaceAllLiteralString : Compiled → String → String → String
  split : Compiled → String → Int → List String
  numSubexp : Compiled → Nat
  subexpNames : Compiled → List String
  subexpIndex : Compiled → String → Int
  stringOf : Compiled → String

/-- Translation of the Go struct `DeferredRegex`: the public pattern string
`Re` and the lazily created compiled object `re` (`none` until first use).
The `sync.Once` gate `once` fires exactly when `re` is assigned, so the
gate/pointer pair is modelled by the single optional field. -/
structure DeferredRegex (C : Type) where
  Re : String
  re : Option C := none
  deriving DecidableEq

/-- Translation of `init`: `dr.once.Do(func() { dr.re = regexp.MustCompile(dr.Re) })`.
Returns the compiled object together with the (possibly updated) state;
`none` models the `MustCompile` panic on an invalid pattern. -/
def DeferredRegex.init (E : Engine) (dr : DeferredRegex E.Compiled) :
    Option (E.Compiled × DeferredRegex E.Compiled) :=
  match dr.re with
  | some c => some (c, dr)
  | none =>
    match E.compile dr.Re with
    | some c => some (c, { dr with re := some c })
    | none => none

/-- Translation of `UnmarshalText`: `dr.Re = string(text); return nil`.
The byte slice is modelled as a `String`; the always-nil error as `none`. -/
def DeferredRegex.UnmarshalText {C : Type} (dr : DeferredRegex C) (text : String) :
    DeferredRegex C × Option String :=
  ({ dr with Re := text }, none)

/-- Translation of `MarshalText`: `return []byte(dr.Re), nil`. -/
def DeferredRegex.MarshalText {C : Type} (dr : DeferredRegex C) :
    String × Option String :=
  (dr.Re, none)

/-- Translation of `UnmarshalFlag`: `dr.Re = in; return nil`. -/
def DeferredRegex.UnmarshalFlag {C : Type} (dr : DeferredRegex C) (input : String) :
    DeferredRegex C × Option String :=
  ({ dr with Re := input }, none)

/-- Translation of `MarshalFlag`: `return dr.Re, nil`. -/
def DeferredRegex.MarshalFlag {C : Type} (dr : DeferredRegex C) :
    String × Option String :=
  (dr.Re, none)

/-- Translation of `MatchString`: `dr.init(); return dr.re.MatchString(s)`. -/
def DeferredRegex.MatchString (E : Engine) (dr : DeferredRegex E.Compiled) (s : String) :
    Option (Bool × DeferredRegex E.Compiled) :=
  (dr.init E).map fun p => (E.matchString p.1 s, p.2)

/-- Translation of `FindString`: `dr.init(); return dr.re.FindString(s)`. -/
def DeferredRegex.FindString (E : Engine) (dr : DeferredRegex E.Compiled) (s : String) :
    Option (String × DeferredRegex E.Compiled) :=
  (dr.init E).map fun p => (E.findString p.1 s, p.2)

/-- Translation of `FindStringIndex`: `dr.init(); return dr.re.FindStringIndex(s)`. -/
def DeferredRegex.FindStringIndex (E : Engine) (dr : DeferredRegex E.Compiled) (s : String) :
    Option (Option (Nat × Nat) × DeferredRegex E.Compiled) :=
  (dr.init E).map fun p => (E.findStringIndex p.1 s, p.2)

/-- Translation of `FindStringSubmatch`: `dr.init(); return dr.re.FindStringSubmatch(s)`. -/
def DeferredRegex.FindStringSubmatch (E : Engine) (dr : DeferredRegex E.Compiled) (s : String) :
    Option (Option (List String) × DeferredRegex E.Compiled) :=
  (dr.init E).map fun p => (E.findStringSubmatch p.1 s, p.2)

/-- Translation of `FindAllString`: `dr.init(); return dr.re.FindAllString(s, n)`. -/
def DeferredRegex.FindAllString (E : Engine) (dr : DeferredRegex E.Compiled)
    (s : String) (n : Int) :
    Option (Option (List String) × DeferredRegex E.Compiled) :=
  (dr.init E).map fun p => (E.findAllString p.1 s n, p.2)

/-- Translation of `ReplaceAllString`: `dr.init(); return dr.re.ReplaceAllString(src, repl)`. -/
def DeferredRegex.ReplaceAllString (E : Engine) (dr : DeferredRegex E.Compiled)
    (src repl : String) :
    Option (String × DeferredRegex E.Compiled) :=
  (dr.init E).map fun p => (E.replaceAllString p.1 src repl, p.2)

/-- Translation of `ReplaceAllLiteralString`:
`dr.init(); return dr.re.ReplaceAllLiteralString(src, repl)`. -/
def DeferredRegex.ReplaceAllLiteralString (E : Engine) (dr : DeferredRegex E.Compiled)
    (src repl : String) :
    Option (String × DeferredRegex E.Compiled) :=
  (dr.init E).map fun p => (E.replaceAllLiteralString p.1 src repl, p.2)

/-- Translation of `Split`: `dr.init(); return dr.re.Split(s, n)`. -/
def DeferredRegex.Split (E : Engine) (dr : DeferredRegex E.Compiled)
    (s : String) (n : Int) :
    Option (List String × DeferredRegex E.Compiled) :=
  (dr.init E).map fun p => (E.split p.1 s n, p.2)

/-- Translation of `NumSubexp`: `dr.init(); return dr.re.NumSubexp()`. -/
def DeferredRegex.NumSubexp (E : Engine) (dr : DeferredRegex E.Compiled) :
    Option (Nat × DeferredRegex E.Compiled) :=
  (dr.init E).map fun p => (E.numSubexp p.1, p.2)

/-- Translation of `SubexpNames`: `dr.init(); return dr.re.SubexpNames()`. -/
def DeferredRegex.SubexpNames (E : Engine) (dr : DeferredRegex E.Compiled) :
    Option (List String × DeferredRegex E.Compiled) :=
  (dr.init E).map fun p => (E.subexpNames p.1, p.2)

/-- Translation of `SubexpIndex`: `dr.init(); return dr.re.SubexpIndex(name)`. -/
def DeferredRegex.SubexpIndex (E : Engine) (dr : DeferredRegex E.Compiled)
    (name : String) :
    Option (Int × DeferredRegex E.Compiled) :=
  (dr.init E).map fun p => (E.subexpIndex p.1 name, p.2)

/-- Translation of `String`: `dr.init(); return dr.re.String()`. -/
def DeferredRegex.String (E : Engine) (dr : DeferredRegex E.Compiled) :
    Option (String × DeferredRegex E.Compiled) :=
  (dr.init E).map fun p => (E.stringOf p.1, p.2)

/-- Modelled from the spec: the eager reference behaviour
`PatternEngine.compile(P)` followed by one operation on the compiled object
(`regexp.MustCompile(P).<op>(...)`); the `MustCompile` panic on an invalid
pattern is modelled as `none`. -/
def eagerOp {α : Type} (E : Engine) (P : String) (f : E.Compiled → α) : Option α :=
  (E.compile P).map f

/-- Modelled from the spec: the abstract syntax of the external Pattern
Engine (Go's `regexp` package), restricted to the RE2 constructs exercised
by the repository's tests and the spec's scenarios: literals, escaped
punctuation, character classes, `.`, concatenation, alternation, `*`, `+`,
`?` and numbered capturing groups. -/
inductive Rgx where
  | eps : Rgx
  | lit : Char → Rgx
  | cls : List (Char × Char) → Bool → Rgx
  | anyc : Rgx
  | seq : Rgx → Rgx → Rgx
  | alt : Rgx → Rgx → Rgx
  | star : Rgx → Rgx
  | quest : Rgx → Rgx
  | plus : Rgx → Rgx
  | group : Nat → Rgx → Rgx
  deriving DecidableEq

/-- Body of a character class: a list of ranges (single characters are
one-element ranges), read up to the closing bracket. -/
def parseClsItems : Nat → List Char → List (Char × Char) →
    Option (List (Char × Char) × List Char)
  | 0, _, _ => none
  | _ + 1, [], _ => none
  | _ + 1, ']' :: rest, acc => some (acc.reverse, rest)
  | f + 1, '\\' :: c :: rest, acc => parseClsItems f rest ((c, c) :: acc)
  | f + 1, a :: '-' :: b :: rest, acc =>
    if b = ']' then parseClsItems f ('-' :: b :: rest) ((a, a) :: acc)
    else parseClsItems f rest ((a, b) :: acc)
  | f + 1, a :: rest, acc => parseClsItems f rest ((a, a) :: acc)

/-- A character class `[...]` or `[^...]`, after the opening bracket. -/
def parseCls (cs : List Char) : Option (Rgx × List Char) :=
  match cs with
  | '^' :: rest =>
    (parseClsItems (rest.length + 1) rest []).map fun pr => (Rgx.cls pr.1 true, pr.2)
  | _ =>
    (parseClsItems (cs.length + 1) cs []).map fun pr => (Rgx.cls pr.1 false, pr.2)

/-- Grammar level selector for the pattern parser: alternation,
concatenation, repetition, atom. -/
inductive PLevel where
  | top : PLevel
  | sq : PLevel
  | rep : PLevel
  | atom : PLevel
  deriving DecidableEq

/-- Recursive-descent pattern parser, one function over the four grammar
levels so that it is structural in its fuel; `g` is the next capturing group
number, threaded through in source order of opening parentheses.  At the
atom level it accepts a group, a character class, an escaped punctuation
character, `.`, or a plain literal character; constructs outside the
modelled subset are rejected. -/
def parseP : Nat → PLevel → Nat → List Char → Option (Rgx × Nat × List Char)
  | 0, _, _, _ => none
  | f + 1, .top, g, cs =>
    match parseP f .sq g cs with
    | none => none
    | some (r, g', rest) =>
      match rest with
      | '|' :: rest' =>
        match parseP f .top g' rest' with
        | none => none
        | some (r2, g'', rest'') => some (Rgx.alt r r2, g'', rest'')
      | _ => some (r, g', rest)
  | f + 1, .sq, g, cs =>
    match cs with
    | [] => some (Rgx.eps, g, [])
    | ')' :: _ => some (Rgx.eps, g, cs)
    | '|' :: _ => some (Rgx.eps, g, cs)
    | _ =>
      match parseP f .rep g cs with
      | none => none
      | some (r, g', rest) =>
        match parseP f .sq g' rest with
        | none => none
        | some (r2, g'', rest') => some (Rgx.seq r r2, g'', rest')
  | f + 1, .rep, g, cs =>
    match parseP f .atom g cs with
    | none => none
    | some (r, g', rest) =>
      match rest with
      | '*' :: rest' => some (Rgx.star r, g', rest')
      | '+' :: rest' => some (Rgx.plus r, g', rest')
      | '?' :: rest' => some (Rgx.quest r, g', rest')
      | _ => some (r, g', rest)
  | f + 1, .atom, g, cs =>
    match cs with
    | [] => none
    | '(' :: rest =>
      match parseP f .top (g + 1) rest with
      | none => none
      | some (r, g', rest') =>
        match rest' with
        | ')' :: rest'' => some (Rgx.group g r, g', rest'')
        | _ => none
    | '[' :: rest => (parseCls rest).map fun pr => (pr.1, g, pr.2)
    | '\\' :: c :: rest => if c.isAlphanum then none else some (Rgx.lit c, g, rest)
    | '.' :: rest => some (Rgx.anyc, g, rest)
    | c :: rest =>
      if c = ')' ∨ c = '|' ∨ c = '*' ∨ c = '+' ∨ c = '?' ∨ c = ']' ∨
          c = '\\' ∨ c = '^' ∨ c = '$' ∨ c = '\x7b' ∨ c = '\x7d' then none
      else some (Rgx.lit c, g, rest)

/-- Compiled form of a pattern in the engine model: the source text it was
compiled from, its abstract syntax and its number of capturing groups. -/
structure GoRegexp where
  src : String
  ast : Rgx
  ngroups : Nat
  deriving DecidableEq

/-- Modelled from the spec: `regexp.Compile` for the modelled syntax subset;
`none` is a compilation failure (which `MustCompile` turns into a panic). -/
def goCompile (p : String) : Option GoRegexp :=
  match parseP (4 * p.length + 8) .top 1 p.toList with
  | some (r, g, []) => some ⟨p, r, g - 1⟩
  | _ => none

/-- Capture environment: group number with start and end positions; later
assignments shadow earlier ones. -/
abbrev Caps := List (Nat × Nat × Nat)

/-- Membership of a character in a list of class ranges. -/
def inRanges (c : Char) : List (Char × Char) → Bool
  | [] => false
  | (lo, hi) :: rs =>
    (decide (lo.toNat ≤ c.toNat) && decide (c.toNat ≤ hi.toNat)) || inRanges c rs

/-- Node count of a pattern, used to bound the matcher's recursion. -/
def sizeR : Rgx → Nat
  | .eps => 1
  | .lit _ => 1
  | .cls _ _ => 1
  | .anyc => 1
  | .seq a b => sizeR a + sizeR b + 1
  | .alt a b => sizeR a + sizeR b + 1
  | .star a => sizeR a + 1
  | .quest a => sizeR a + 1
  | .plus a => sizeR a + 1
  | .group _ a => sizeR a + 1

/-- Backtracking matcher: all ways the pattern can match starting at
position `i`, each as an end position with its capture environment, in the
engine's preference order (greedy repetition, left alternative first), so
the head of the list is the match the engine reports. -/
def mtch : Nat → List Char → Rgx → Nat → Caps → List (Nat × Caps)
  | 0, _, _, _, _ => []
  | f + 1, s, r, i, k =>
    match r with
    | .eps => [(i, k)]
    | .lit c =>
      match s.get? i with
      | some c' => if c' = c then [(i + 1, k)] else []
      | none => []
    | .cls rs neg =>
      match s.get? i with
      | some c => if inRanges c rs ≠ neg then [(i + 1, k)] else []
      | none => []
    | .anyc =>
      match s.get? i with
      | some c => if c = '\n' then [] else [(i + 1, k)]
      | none => []
    | .seq a b => (mtch f s a i k).flatMap fun p => mtch f s b p.1 p.2
    | .alt a b => mtch f s a i k ++ mtch f s b i k
    | .star a =>
      ((mtch f s a i k).flatMap fun p =>
        if i < p.1 then mtch f s (.star a) p.1 p.2 else []) ++ [(i, k)]
    | .quest a => mtch f s a i k ++ [(i, k)]
    | .plus a => (mtch f s a i k).flatMap fun p => mtch f s (.star a) p.1 p.2
    | .group n a => (mtch f s a i k).map fun p => (p.1, (n, i, p.1) :: p.2)

/-- Fuel sufficient for `mtch` on the given pattern and subject. -/
def mfuel (r : Rgx) (s : List Char) : Nat :=
  (sizeR r + 2) * (s.length + 2)

/-- Leftmost search: try each start position from `i` upwards and report the
first (hence leftmost, then highest-preference) match. -/
def searchAux : Nat → List Char → Rgx → Nat → Option (Nat × Nat × Caps)
  | 0, _, _, _ => none
  | f + 1, s, r, i =>
    match mtch (mfuel r s) s r i [] with
    | p :: _ => some (i, p.1, p.2)
    | [] => if i < s.length then searchAux f s r (i + 1) else none

/-- Leftmost match of a pattern in a subject, searching from the start. -/
def search (s : List Char) (r : Rgx) : Option (Nat × Nat × Caps) :=
  searchAux (s.length + 2) s r 0

/-- First capture recorded for group `n` (the engine's final value for it). -/
def capLookup : Caps → Nat → Option (Nat × Nat)
  | [], _ => none
  | (m, a, b) :: rest, n => if m = n then some (a, b) else capLookup rest n

/-- The substring of `s` from position `a` (inclusive) to `b` (exclusive). -/
def subStr (s : List Char) (a b : Nat) : String :=
  String.mk ((s.drop a).take (b - a))

/-- Modelled from the spec: `Regexp.FindStringSubmatch` — the leftmost match
together with the text of each capturing group (`""` for a group that did
not participate); `none` is the nil slice returned when there is no match. -/
def goFindSubmatch (c : GoRegexp) (s : String) : Option (List String) :=
  let cs := s.toList
  (search cs c.ast).map fun t =>
    subStr cs t.1 t.2.1 ::
      (List.range c.ngroups).map fun g =>
        match capLookup t.2.2 (g + 1) with
        | some ab => subStr cs ab.1 ab.2
        | none => ""

/-- Modelled from the spec: `Regexp.MatchString`. -/
def goMatchString (c : GoRegexp) (s : String) : Bool :=
  (search s.toList c.ast).isSome

/-- Modelled from the spec: `Regexp.FindString` (`""` when there is no match). -/
def goFindString (c : GoRegexp) (s : String) : String :=
  match search s.toList c.ast with
  | some t => subStr s.toList t.1 t.2.1
  | none => ""

/-- Modelled from the spec: `Regexp.FindStringIndex` (`none` is the nil slice). -/
def goFindStringIndex (c : GoRegexp) (s : String) : Option (Nat × Nat) :=
  (search s.toList c.ast).map fun t => (t.1, t.2.1)

/-- Modelled from the spec: the engine's iteration over successive
non-overlapping leftmost matches (`allMatches`): after a match the scan
resumes at its end, an empty match advances the scan by one position, and an
empty match immediately at the previous match's end is not delivered. -/
def findAllAux : Nat → List Char → Rgx → Nat → Option Nat → Nat →
    List (Nat × Nat × Caps)
  | 0, _, _, _, _, _ => []
  | _ + 1, _, _, _, _, 0 => []
  | f + 1, s, r, pos, prevEnd, rem + 1 =>
    if pos > s.length then []
    else
      match searchAux (s.length + 2) s r pos with
      | none => []
      | some (i, j, k) =>
        let accept := ¬(j = i ∧ prevEnd = some i)
        let pos' := if j = i then pos + 1 else j
        if accept then (i, j, k) :: findAllAux f s r pos' (some j) rem
        else findAllAux f s r pos' (some j) (rem + 1)

/-- All match ranges of a pattern in a subject, at most `n` of them
(`n < 0` means no limit, as in the engine's `FindAll` operations). -/
def goFindAll (c : GoRegexp) (s : String) (n : Int) : List (Nat × Nat × Caps) :=
  let cs := s.toList
  let lim : Nat := if n < 0 then cs.length + 1 else n.toNat
  findAllAux (cs.length + 2) cs c.ast 0 none lim

/-- Modelled from the spec: `Regexp.FindAllString` (`none` is the nil slice
returned when there is no match). -/
def goFindAllString (c : GoRegexp) (s : String) (n : Int) : Option (List String) :=
  match goFindAll c s n with
  | [] => none
  | ms => some (ms.map fun t => subStr s.toList t.1 t.2.1)

/-- Loop of the engine's `Split`: walk the match ranges, collecting the text
between consecutive matches; returns the pieces together with the final
`beg` and `end` cursor values. -/
def splitAux (s : List Char) (n : Int) : List (Nat × Nat × Caps) →
    List String → Nat → Nat → List String × Nat × Nat
  | [], acc, beg, endv => (acc, beg, endv)
  | (a, b, _) :: rest, acc, beg, endv =>
    if n > 0 ∧ acc.length ≥ n.toNat - 1 then (acc, beg, endv)
    else if b ≠ 0 then splitAux s n rest (acc ++ [subStr s beg a]) b a
    else splitAux s n rest acc b a

/-- Modelled from the spec: `Regexp.Split`. -/
def goSplit (c : GoRegexp) (s : String) (n : Int) : List String :=
  if n = 0 then []
  else if c.src.length > 0 ∧ s.length = 0 then [""]
  else
    let cs := s.toList
    match splitAux cs n (goFindAll c s n) [] 0 0 with
    | (acc, beg, endv) =>
      if endv ≠ cs.length then acc ++ [subStr cs beg cs.length] else acc

/-- Replace every match range in `s`, rendering the replacement for each
match with the supplied function; the text outside the ranges is kept. -/
def stitchAux (cs : List Char) (replFor : Nat × Nat × Caps → String) :
    List (Nat × Nat × Caps) → Nat → String
  | [], last => subStr cs last cs.length
  | (a, b, k) :: rest, last =>
    subStr cs last a ++ replFor (a, b, k) ++ stitchAux cs replFor rest b

/-- Modelled from the spec: `Regexp.ReplaceAllLiteralString` — every match
is replaced by the replacement string taken literally. -/
def goReplaceAllLiteralString (c : GoRegexp) (src repl : String) : String :=
  stitchAux src.toList (fun _ => repl) (goFindAll c src (-1)) 0

/-- Longest run of letters, digits and underscores at the front of a
template, as used for `$name` references. -/
def spanName : List Char → List Char × List Char
  | [] => ([], [])
  | c :: rest =>
    if c.isAlphanum ∨ c = '_' then
      match spanName rest with
      | (name, rest') => (c :: name, rest')
    else ([], c :: rest)

/-- Numeric value of a template reference name, when it is all digits. -/
def nameNum (name : List Char) : Option Nat :=
  if name ≠ [] ∧ name.all Char.isDigit then
    some (name.foldl (fun acc c => 10 * acc + (c.toNat - 48)) 0)
  else none

/-- Text a `$` reference expands to: the numbered group's text, or `""` for
an out-of-range number or a name the pattern does not define. -/
def refText (grp : Nat → Option String) (name : List Char) : String :=
  match nameNum name with
  | some n => (grp n).getD ""
  | none => ""

/-- Modelled from the spec: the engine's `expand` of a replacement template —
`$$` is a literal `$`, `$name` and `$\x7bname\x7d` are group references, and
a malformed `$` is kept as raw text. -/
def expandT : Nat → (Nat → Option String) → List Char → String
  | 0, _, tmpl => String.mk tmpl
  | _ + 1, _, [] => ""
  | f + 1, grp, '$' :: rest =>
    match rest with
    | '$' :: rest' => "$" ++ expandT f grp rest'
    | '\x7b' :: rest' =>
      (match spanName rest' with
       | (name, '\x7d' :: rest'') =>
         if name ≠ [] then refText grp name ++ expandT f grp rest''
         else "$" ++ expandT f grp rest
       | _ => "$" ++ expandT f grp rest)
    | _ =>
      match spanName rest with
      | ([], _) => "$" ++ expandT f grp rest
      | (name, rest') => refText grp name ++ expandT f grp rest'
  | f + 1, grp, ch :: rest => String.singleton ch ++ expandT f grp rest

/-- Group-text lookup for one match: group `0` is the whole match, groups
`1..ngroups` come from the capture environment (`none` when the group did
not participate or the number is out of range). -/
def grpFn (cs : List Char) (ngroups : Nat) (m : Nat × Nat × Caps) (g : Nat) :
    Option String :=
  if g = 0 then some (subStr cs m.1 m.2.1)
  else if g ≤ ngroups then
    (capLookup m.2.2 g).map fun ab => subStr cs ab.1 ab.2
  else none

/-- Modelled from the spec: `Regexp.ReplaceAllString` — every match is
replaced by the template expanded with that match's groups. -/
def goReplaceAllString (c : GoRegexp) (src repl : String) : String :=
  let cs := src.toList
  stitchAux cs
    (fun m => expandT (repl.length + 1) (grpFn cs c.ngroups m) repl.toList)
    (goFindAll c src (-1)) 0

/-- Modelled from the spec: `Regexp.SubexpNames` — one entry per group plus
the leading entry for the whole match; the modelled subset has no named
groups, so every entry is `""`. -/
def goSubexpNames (c : GoRegexp) : List String :=
  List.replicate (c.ngroups + 1) ""

/-- Modelled from the spec: `Regexp.SubexpIndex` — the index of the first
group with the given non-empty name, `-1` otherwise. -/
def goSubexpIndex (c : GoRegexp) (name : String) : Int :=
  if name = "" then -1
  else
    match (goSubexpNames c).findIdx? (fun s => s = name) with
    | some i => Int.ofNat i
    | none => -1

/-- Modelled from the spec: the external Pattern Engine instantiated with
the executable Go-regexp model above; `Regexp.String` returns the source
text the object was compiled from and `Regexp.NumSubexp` its group count. -/
def goEngine : Engine where
  Compiled := GoRegexp
  compile := goCompile
  matchString := goMatchString
  findString := goFindString
  findStringIndex := goFindStringIndex
  findStringSubmatch := goFindSubmatch
  findAllString := goFindAllString
  replaceAllString := goReplaceAllString
  replaceAllLiteralString := goReplaceAllLiteralString
  split := goSplit
  numSubexp := GoRegexp.ngroups
  subexpNames := goSubexpNames
  subexpIndex := goSubexpIndex
  stringOf := GoRegexp.src

/-- A compiled-object value for the pattern `"a+"` in the engine model, used
for concrete instantiations. -/
def goAplus : GoRegexp := (goCompile "a+").getD ⟨"", Rgx.eps, 0⟩

instance : DecidableEq goEngine.Compiled :=
  inferInstanceAs (DecidableEq GoRegexp)

theorem init_already_compiled (E : Engine) (dr : DeferredRegex E.Compiled)
    (c : E.Compiled) (h : dr.re = some c) : dr.init E = some (c, dr) := by
  unfold DeferredRegex.init
  rw [h]

theorem init_fresh (E : Engine) (P : String) :
    (⟨P, none⟩ : DeferredRegex E.Compiled).init E
      = (E.compile P).map fun c => (c, ⟨P, some c⟩) := by
  unfold DeferredRegex.init
  cases E.compile P <;> rfl

/-- C1: on a freshly constructed `DeferredRegex` with a valid pattern `P`,
every pass-through operation returns exactly the result of the same
operation on the eagerly compiled `regexp.MustCompile(P)`. -/
theorem C1_pass_through (E : Engine) (P S t u name : String) (n : Int)
    (hv : (E.compile P).isSome = true) :
    (((⟨P, none⟩ : DeferredRegex E.Compiled).MatchString E S).map Prod.fst
        = eagerOp E P fun c => E.matchString c S)
  ∧ (((⟨P, none⟩ : DeferredRegex E.Compiled).FindString E S).map Prod.fst
        = eagerOp E P fun c => E.findString c S)
  ∧ (((⟨P, none⟩ : DeferredRegex E.Compiled).FindStringIndex E S).map Prod.fst
        = eagerOp E P fun c => E.findStringIndex c S)
  ∧ (((⟨P, none⟩ : DeferredRegex E.Compiled).FindStringSubmatch E S).map Prod.fst
        = eagerOp E P fun c => E.findStringSubmatch c S)
  ∧ (((⟨P, none⟩ : DeferredRegex E.Compiled).FindAllString E S n).map Prod.fst
        = eagerOp E P fun c => E.findAllString c S n)
  ∧ (((⟨P, none⟩ : DeferredRegex E.Compiled).ReplaceAllString E t u).map Prod.fst
        = eagerOp E P fun c => E.replaceAllString c t u)
  ∧ (((⟨P, none⟩ : DeferredRegex E.Compiled).ReplaceAllLiteralString E t u).map Prod.fst
        = eagerOp E P fun c => E.replaceAllLiteralString c t u)
  ∧ (((⟨P, none⟩ : DeferredRegex E.Compiled).Split E S n).map Prod.fst
        = eagerOp E P fun c => E.split c S n)
  ∧ (((⟨P, none⟩ : DeferredRegex E.Compiled).NumSubexp E).map Prod.fst
        = eagerOp E P fun c => E.numSubexp c)
  ∧ (((⟨P, none⟩ : DeferredRegex E.Compiled).SubexpNames E).map Prod.fst
        = eagerOp E P fun c => E.subexpNames c)
  ∧ (((⟨P, none⟩ : DeferredRegex E.Compiled).SubexpIndex E name).map Prod.fst
        = eagerOp E P fun c => E.subexpIndex c name)
  ∧ (((⟨P, none⟩ : DeferredRegex E.Compiled).String E).map Prod.fst
        = eagerOp E P fun c => E.stringOf c) := by
  obtain ⟨c, hc⟩ := Option.isSome_iff_exists.mp hv
  refine ⟨?_, ?_, ?_, ?_, ?_, ?_, ?_, ?_, ?_, ?_, ?_, ?_⟩ <;>
    simp [DeferredRegex.MatchString, DeferredRegex.FindString,
      DeferredRegex.FindStringIndex, DeferredRegex.FindStringSubmatch,
      DeferredRegex.FindAllString, DeferredRegex.ReplaceAllString,
      DeferredRegex.ReplaceAllLiteralString, DeferredRegex.Split,
      DeferredRegex.NumSubexp, DeferredRegex.SubexpNames,
      DeferredRegex.SubexpIndex, DeferredRegex.String,
      init_fresh, eagerOp, hc]

theorem C1_pass_through_witness :
    (goEngine.compile "a").isSome = true
  ∧ (((⟨"a", none⟩ : DeferredRegex goEngine.Compiled).MatchString goEngine "ab").map Prod.fst
        = eagerOp goEngine "a" fun c => goEngine.matchString c "ab") :=
  ⟨by decide, (C1_pass_through goEngine "a" "ab" "t" "u" "v" 1 (by decide)).1⟩

/-- C3: once a `DeferredRegex` holds a compiled object, loading another
pattern via `UnmarshalText` or `UnmarshalFlag` does not recompile: every
later matching operation returns exactly what it returned before the load,
still using the originally compiled object. -/
theorem C3_post_compile_mutation_inert (E : Engine) (dr : DeferredRegex E.Compiled)
    (c : E.Compiled) (t S u v : String) (n : Int) (h : dr.re = some c) :
    (((dr.UnmarshalText t).1.MatchString E S).map Prod.fst
        = (dr.MatchString E S).map Prod.fst)
  ∧ (((dr.UnmarshalText t).1.FindStringSubmatch E S).map Prod.fst
        = (dr.FindStringSubmatch E S).map Prod.fst)
  ∧ (((dr.UnmarshalText t).1.FindString E S).map Prod.fst
        = (dr.FindString E S).map Prod.fst)
  ∧ (((dr.UnmarshalText t).1.ReplaceAllString E u v).map Prod.fst
        = (dr.ReplaceAllString E u v).map Prod.fst)
  ∧ (((dr.UnmarshalText t).1.Split E S n).map Prod.fst
        = (dr.Split E S n).map Prod.fst)
  ∧ (((dr.UnmarshalFlag t).1.MatchString E S).map Prod.fst
        = (dr.MatchString E S).map Prod.fst)
  ∧ ((dr.UnmarshalText t).1.MatchString E S
        = some (E.matchString c S, (dr.UnmarshalText t).1)) := by
  have h2 : ((dr.UnmarshalText t).1).re = some c := h
  have h3 : ((dr.UnmarshalFlag t).1).re = some c := h
  refine ⟨?_, ?_, ?_, ?_, ?_, ?_, ?_⟩ <;>
    simp [DeferredRegex.MatchString, DeferredRegex.FindStringSubmatch,
      DeferredRegex.FindString, DeferredRegex.ReplaceAllString,
      DeferredRegex.Split, init_already_compiled E _ c h,
      init_already_compiled E _ c h2, init_already_compiled E _ c h3]

theorem C3_post_compile_mutation_inert_witness :
    (({ Re := "a+", re := some goAplus } : DeferredRegex goEngine.Compiled).re
        = some goAplus)
  ∧ (((({ Re := "a+", re := some goAplus } : DeferredRegex goEngine.Compiled).UnmarshalText
        "(").1.MatchString goEngine "aa").map Prod.fst
      = ((({ Re := "a+", re := some goAplus } : DeferredRegex goEngine.Compiled).MatchString
        goEngine "aa").map Prod.fst)) :=
  ⟨rfl, (C3_post_compile_mutation_inert goEngine _ goAplus "(" "aa" "u" "v" 1 rfl).1⟩

/-- C4: an invalid pattern causes no failure at construction or load time —
`UnmarshalText`/`UnmarshalFlag` return a nil error and the marshalling
operations still succeed — while the `MustCompile` panic surfaces exactly
when the first matching/searching/replacing/introspecting operation is
invoked on the instance. -/
theorem C4_deferred_validity (E : Engine) (P S : String)
    (dr : DeferredRegex E.Compiled) (h : E.compile P = none) :
    ((dr.UnmarshalText P).2 = none)
  ∧ ((dr.UnmarshalFlag P).2 = none)
  ∧ (((⟨P, none⟩ : DeferredRegex E.Compiled).MatchString E S) = none)
  ∧ (((⟨P, none⟩ : DeferredRegex E.Compiled).FindStringSubmatch E S) = none)
  ∧ (((⟨P, none⟩ : DeferredRegex E.Compiled).String E) = none)
  ∧ ((⟨P, none⟩ : DeferredRegex E.Compiled).MarshalText = (P, none))
  ∧ ((⟨P, none⟩ : DeferredRegex E.Compiled).MarshalFlag = (P, none)) := by
  refine ⟨rfl, rfl, ?_, ?_, ?_, rfl, rfl⟩ <;>
    simp [DeferredRegex.MatchString, DeferredRegex.FindStringSubmatch,
      DeferredRegex.String, init_fresh, h]

theorem C4_deferred_validity_witness :
    (goCompile "(" = none)
  ∧ (((⟨"(", none⟩ : DeferredRegex goEngine.Compiled).MatchString goEngine "x") = none) :=
  ⟨by decide,
    (C4_deferred_validity goEngine "(" "x" ⟨"", none⟩
      ((by decide : goCompile "(" = none))).2.2.1⟩

/-- C5: `MarshalText` returns exactly the pattern bytes with a nil error for
every instance state, compiled or not, and feeding that output to
`UnmarshalText` yields an instance whose pattern field equals the original
pattern again. -/
theorem C5_marshal_roundtrip {C : Type} (dr dr' : DeferredRegex C) :
    (dr.MarshalText = (dr.Re, none))
  ∧ ((dr'.UnmarshalText dr.MarshalText.1).1.Re = dr.Re)
  ∧ ((dr'.UnmarshalText dr.MarshalText.1).2 = none) :=
  ⟨rfl, rfl, rfl⟩

/-- C6: `UnmarshalText` and `UnmarshalFlag` accept any text, always return a
nil error, set the pattern field to exactly the supplied text, and leave the
compiled handle untouched. -/
theorem C6_load_unconditional {C : Type} (dr : DeferredRegex C) (t : String) :
    (dr.UnmarshalText t = ({ dr with Re := t }, none))
  ∧ ((dr.UnmarshalText t).1.re = dr.re)
  ∧ (dr.UnmarshalFlag t = ({ dr with Re := t }, none))
  ∧ ((dr.UnmarshalFlag t).1.re = dr.re) :=
  ⟨rfl, rfl, rfl, rfl⟩

/-- C7: the flag-marshalling pair is semantically identical to the
text-marshalling pair: `MarshalFlag` returns the same string and error as
`MarshalText`, and `UnmarshalFlag` produces exactly the state that
`UnmarshalText` produces on the same input. -/
theorem C7_flag_text_identical {C : Type} (dr : DeferredRegex C) (s : String) :
    (dr.MarshalFlag = dr.MarshalText) ∧ (dr.UnmarshalFlag s = dr.UnmarshalText s) :=
  ⟨rfl, rfl⟩

/-- C8: every pass-through operation leaves the state exactly as `init`
does; `init` preserves the pattern field and either keeps the compiled
handle or creates it once from the current pattern; and the render
operations return the pattern without touching any field. -/
theorem C8_frame (E : Engine) (dr : DeferredRegex E.Compiled)
    (s t u name : String) (n : Int) :
    ((dr.MatchString E s).map Prod.snd = (dr.init E).map Prod.snd)
  ∧ ((dr.FindString E s).map Prod.snd = (dr.init E).map Prod.snd)
  ∧ ((dr.FindStringIndex E s).map Prod.snd = (dr.init E).map Prod.snd)
  ∧ ((dr.FindStringSubmatch E s).map Prod.snd = (dr.init E).map Prod.snd)
  ∧ ((dr.FindAllString E s n).map Prod.snd = (dr.init E).map Prod.snd)
  ∧ ((dr.ReplaceAllString E t u).map Prod.snd = (dr.init E).map Prod.snd)
  ∧ ((dr.ReplaceAllLiteralString E t u).map Prod.snd = (dr.init E).map Prod.snd)
  ∧ ((dr.Split E s n).map Prod.snd = (dr.init E).map Prod.snd)
  ∧ ((dr.NumSubexp E).map Prod.snd = (dr.init E).map Prod.snd)
  ∧ ((dr.SubexpNames E).map Prod.snd = (dr.init E).map Prod.snd)
  ∧ ((dr.SubexpIndex E name).map Prod.snd = (dr.init E).map Prod.snd)
  ∧ ((dr.String E).map Prod.snd = (dr.init E).map Prod.snd)
  ∧ ((dr.init E).map (fun p => p.2.Re) = (dr.init E).map fun _ => dr.Re)
  ∧ ((dr.init E).map Prod.snd
        = match dr.re with
          | some _ => some dr
          | none => (E.compile dr.Re).map fun c => { dr with re := some c })
  ∧ (dr.MarshalText = (dr.Re, none))
  ∧ (dr.MarshalFlag = (dr.Re, none)) := by
  have hRe : (dr.init E).map (fun p => p.2.Re) = (dr.init E).map fun _ => dr.Re := by
    cases hre : dr.re <;> simp [DeferredRegex.init, hre] <;>
      cases E.compile dr.Re <;> simp
  have hst : (dr.init E).map Prod.snd
      = (match dr.re with
         | some _ => some dr
         | none => (E.compile dr.Re).map fun c => { dr with re := some c }) := by
    cases hre : dr.re <;> simp [DeferredRegex.init, hre] <;>
      cases E.compile dr.Re <;> simp
  refine ⟨?_, ?_, ?_, ?_, ?_, ?_, ?_, ?_, ?_, ?_, ?_, ?_, hRe, hst, rfl, rfl⟩ <;>
    simp [DeferredRegex.MatchString, DeferredRegex.FindString,
      DeferredRegex.FindStringIndex, DeferredRegex.FindStringSubmatch,
      DeferredRegex.FindAllString, DeferredRegex.ReplaceAllString,
      DeferredRegex.ReplaceAllLiteralString, DeferredRegex.Split,
      DeferredRegex.NumSubexp, DeferredRegex.SubexpNames,
      DeferredRegex.SubexpIndex, DeferredRegex.String, Option.map_map,
      Function.comp_def]

/-- C9: `FindStringSubmatch` with the version-number pattern
`([0-9]+)\.([0-9]+)\.([0-9]+)` applied to `"1.2.3"` returns exactly the
full match followed by the three captured components. -/
theorem C9_version_scenario :
    ((({ Re := "([0-9]+)\\.([0-9]+)\\.([0-9]+)" } : DeferredRegex goEngine.Compiled).FindStringSubmatch
        goEngine "1.2.3").map Prod.fst)
      = some (some ["1.2.3", "1", "2", "3"]) := by
  decide

/-- C10: the two pattern-rendering surfaces diverge: `String` forces
compilation, so it panics on an invalid pattern where `MarshalText`
succeeds, and after compiling under `"a+"` an `UnmarshalText` of `"b*"`
leaves `String` returning the compile-time pattern `"a+"` while
`MarshalText` returns the current field `"b*"`. -/
theorem C10_string_vs_marshaltext :
    ((({ Re := "(" } : DeferredRegex goEngine.Compiled).String goEngine) = none)
  ∧ ((({ Re := "(" } : DeferredRegex goEngine.Compiled).MarshalText) = ("(", none))
  ∧ (((⟨"a+", none⟩ : DeferredRegex goEngine.Compiled).MatchString goEngine "a").map Prod.snd
        = some { Re := "a+", re := some goAplus })
  ∧ (((({ Re := "a+", re := some goAplus } : DeferredRegex goEngine.Compiled).UnmarshalText
        "b*").1.String goEngine).map Prod.fst = some "a+")
  ∧ (((({ Re := "a+", re := some goAplus } : DeferredRegex goEngine.Compiled).UnmarshalText
        "b*").1.MarshalText) = ("b*", none)) := by
  refine ⟨by decide, rfl, by decide, by decide, rfl⟩
